import Mathlib

/-!
Signature generation of librsync-go (`signature.go`).

A shallow embedding of `CalcStrongSum` and `Signature` together with the
properties of the signature stream they produce.

Conventions of the embedding:

* a byte is a `Nat` (below 256 for everything the code produces), a byte
  slice is a `List Nat`, a `uint32` is a `Nat` below `2 ^ 32`;
* the Go `error` value is `Option Err` (`none` is `nil`);
* an `io.Reader` is the bytes it still delivers plus the error its `Read`
  reports once they are used up (`Err.eof` for a clean end of stream);
* an `io.Writer` is the bytes it has accepted plus a script that says which
  of the coming `Write` calls fail;
* the `for` loop of `Signature` takes a fuel argument: one unit per
  iteration.  A run that uses up its fuel is reported as `Status.running`.
-/

namespace Rdiff

/-! ## Errors and results -/

/-- The error values that occur: the two sentinels of package `io`, the two
errors `Signature` and `CalcStrongSum` build with `fmt.Errorf`, and any other
error of a stream, identified by a code. -/
inductive Err where
  | eof
  | unexpectedEOF
  | invalidSigType (sigType : Nat)
  | invalidStrongLen (strongLen sigType : Nat)
  | other (code : Nat)
  deriving DecidableEq, Repr

/-- Result of a Go function returning `(value, error)` that may also stop
with a run-time fault (a slice bound out of range). -/
inductive Outcome (α : Type) where
  | ok (a : α)
  | error (e : Err)
  | fault
  deriving DecidableEq, Repr

/-! ## Parts of the repository and of its libraries that `signature.go` uses -/

/-- The declarations `signature.go` uses but does not contain: the two magic
numbers (type `MagicNumber`, a `uint32`), the weak checksum of the rollsum
file, and the two digest functions of `golang.org/x/crypto`.  `blake2b.Sum256`
returns a `[32]byte` and `md4` has `Size = 16`, which the types record.  The two
magic numbers are the constants of two `case` clauses of one `switch`, which Go
only compiles when they differ. -/
structure Deps where
  BLAKE2_SIG_MAGIC : Nat
  MD4_SIG_MAGIC : Nat
  WeakChecksum : List Nat → Nat
  blake2bSum256 : List Nat → { d : List Nat // d.length = 32 }
  md4Sum : List Nat → { d : List Nat // d.length = 16 }
  magic_ne : BLAKE2_SIG_MAGIC ≠ MD4_SIG_MAGIC

def BLAKE2_SUM_LENGTH : Nat := 32

def MD4_SUM_LENGTH : Nat := 16

/-! ## Streams -/

/-- An `io.Reader`: `data` is what it still delivers, `endErr` is what `Read`
returns once `data` is used up (`Err.eof` for a stream that simply ends). -/
structure Reader where
  data : List Nat
  endErr : Err
  deriving DecidableEq, Repr

/-- An `io.Writer`: `out` is every byte accepted so far.  `script` describes the
coming `Write` calls in order: `none` for a call that succeeds, `some (k, e)`
for a call that accepts at most `k` bytes and returns `e`.  Once the script is
used up every call succeeds. -/
structure Writer where
  out : List Nat
  script : List (Option (Nat × Err))
  deriving DecidableEq, Repr

/-- One call `w.Write(p)`; the byte count it returns is dropped, as every
caller in `signature.go` drops it. -/
def Writer.Write (w : Writer) (p : List Nat) : Writer × Option Err :=
  match w.script with
  | [] => ({ w with out := w.out ++ p }, none)
  | none :: rest => ({ out := w.out ++ p, script := rest }, none)
  | some (k, e) :: rest => ({ out := w.out ++ p.take k, script := rest }, some e)

/-- Big-endian bytes of a `uint32`, `binary.BigEndian.PutUint32`. -/
def be32 (x : Nat) : List Nat :=
  [x / 2 ^ 24 % 256, x / 2 ^ 16 % 256, x / 2 ^ 8 % 256, x % 256]

/-- Reading a big-endian `uint32` from the first four bytes,
`binary.BigEndian.Uint32`; `none` when fewer than four bytes are there. -/
def beUint32 : List Nat → Option Nat
  | b0 :: b1 :: b2 :: b3 :: _ => some (b0 * 2 ^ 24 + b1 * 2 ^ 16 + b2 * 2 ^ 8 + b3)
  | _ => none

/-- The call `binary.Write(w, binary.BigEndian, x)` for a 32-bit `x`: the four
bytes go out in a single `Write`, whose error is returned. -/
def binaryWrite (w : Writer) (x : Nat) : Writer × Option Err :=
  w.Write (be32 x)

/-- The call `io.ReadFull(r, buf)` with `len(buf) = len`: the reader afterwards,
the bytes put into `buf[:n]`, and the error.  With enough bytes left (always
so for `len = 0`, where no `Read` happens) the buffer is filled and the error
is `nil`.  Otherwise all remaining bytes are read and the error is the one of
the reader, where a clean end of stream is `io.EOF` when nothing was read
and `io.ErrUnexpectedEOF` after a short read. -/
def ReadFull (r : Reader) (len : Nat) : Reader × List Nat × Option Err :=
  if len ≤ r.data.length then
    ({ r with data := r.data.drop len }, r.data.take len, none)
  else
    ({ r with data := [] }, r.data,
      some (if r.endErr = Err.eof then
              (if r.data.length = 0 then Err.eof else Err.unexpectedEOF)
            else r.endErr))

/-! ## `CalcStrongSum` -/

/-- Go's `signature.go` `CalcStrongSum`: the digest of `data` under the selected
function, cut to `strongLen` bytes by the slice expression `d[:strongLen]`,
which faults when `strongLen` is beyond the digest. -/
def CalcStrongSum (D : Deps) (data : List Nat) (sigType strongLen : Nat) :
    Outcome (List Nat) :=
  if sigType = D.BLAKE2_SIG_MAGIC then
    let d := (D.blake2bSum256 data).val
    if strongLen ≤ d.length then Outcome.ok (d.take strongLen) else Outcome.fault
  else if sigType = D.MD4_SIG_MAGIC then
    let d := (D.md4Sum data).val
    if strongLen ≤ d.length then Outcome.ok (d.take strongLen) else Outcome.fault
  else
    Outcome.error (Err.invalidSigType sigType)

/-! ## `Signature` -/

/-- How a run of `Signature` stands: it returned an `error` value (`none` is
`nil`), it stopped with a run-time fault, or it is still in its loop after
the given number of iterations. -/
inductive Status where
  | returned (err : Option Err)
  | fault
  | running
  deriving DecidableEq, Repr

/-- What a run of `Signature` leaves behind. -/
structure Run where
  status : Status
  input : Reader
  output : Writer
  deriving DecidableEq, Repr

/-- The `for` loop of `Signature` (lines 69-85), at most `fuel` iterations. -/
def sigLoop (D : Deps) (blockLen strongLen sigType : Nat) :
    Nat → Reader → Writer → Run
  | 0, input, output => ⟨Status.running, input, output⟩
  | fuel + 1, input, output =>
    match ReadFull input blockLen with
    | (input1, _, some e) =>
      if e = Err.unexpectedEOF ∨ e = Err.eof then
        ⟨Status.returned none, input1, output⟩
      else
        ⟨Status.returned (some e), input1, output⟩
    | (input1, data, none) =>
      match binaryWrite output (D.WeakChecksum data) with
      | (output1, some e) => ⟨Status.returned (some e), input1, output1⟩
      | (output1, none) =>
        match CalcStrongSum D data sigType strongLen with
        | Outcome.fault => ⟨Status.fault, input1, output1⟩
        | Outcome.ok strong => sigLoop D blockLen strongLen sigType fuel input1 (output1.Write strong).1
        | Outcome.error _ => sigLoop D blockLen strongLen sigType fuel input1 (output1.Write []).1

/-- Go's `signature.go` `Signature`, with `fuel` bounding the iterations of its
loop.  The `switch` on `sigType` either sets `maxStrongLen` or returns. -/
def Signature (D : Deps) (fuel : Nat) (input : Reader) (output : Writer)
    (blockLen strongLen sigType : Nat) : Run :=
  let switch : Option Nat :=
    if sigType = D.BLAKE2_SIG_MAGIC then some BLAKE2_SUM_LENGTH
    else if sigType = D.MD4_SIG_MAGIC then some MD4_SUM_LENGTH
    else none
  match switch with
  | none => ⟨Status.returned (some (Err.invalidSigType sigType)), input, output⟩
  | some maxStrongLen =>
    if strongLen > maxStrongLen then
      ⟨Status.returned (some (Err.invalidStrongLen strongLen sigType)), input, output⟩
    else
      match binaryWrite output sigType with
      | (output1, some e) => ⟨Status.returned (some e), input, output1⟩
      | (output1, none) =>
        match binaryWrite output1 blockLen with
        | (output2, some e) => ⟨Status.returned (some e), input, output2⟩
        | (output2, none) =>
          match binaryWrite output2 strongLen with
          | (output3, some e) => ⟨Status.returned (some e), input, output3⟩
          | (output3, none) => sigLoop D blockLen strongLen sigType fuel input output3

/-! ## Vocabulary of the statements -/

/-- Native digest length of a selector, as the `switch` of `Signature` sets
`maxStrongLen`; `none` for a selector that is not recognized. -/
def nativeLen (D : Deps) (sigType : Nat) : Option Nat :=
  if sigType = D.BLAKE2_SIG_MAGIC then some BLAKE2_SUM_LENGTH
  else if sigType = D.MD4_SIG_MAGIC then some MD4_SUM_LENGTH
  else none

/-- The full native digest of a block under a recognized selector: BLAKE2b-256
for the BLAKE2 selector, MD4 otherwise. -/
def nativeDigest (D : Deps) (sigType : Nat) (block : List Nat) : List Nat :=
  if sigType = D.BLAKE2_SIG_MAGIC then (D.blake2bSum256 block).val
  else (D.md4Sum block).val

/-- The twelve bytes of the header. -/
def header (sigType blockLen strongLen : Nat) : List Nat :=
  be32 sigType ++ be32 blockLen ++ be32 strongLen

/-- Block `i` of the input: bytes `[i * blockLen, (i + 1) * blockLen)`. -/
def blockAt (data : List Nat) (blockLen i : Nat) : List Nat :=
  (data.drop (i * blockLen)).take blockLen

/-- The pair of a block: its weak checksum in four big-endian bytes, then the
first `strongLen` bytes of its native digest. -/
def pairOf (D : Deps) (sigType strongLen : Nat) (block : List Nat) : List Nat :=
  be32 (D.WeakChecksum block) ++ (nativeDigest D sigType block).take strongLen

/-- The pairs of the first `k` blocks of the input, in block order. -/
def pairsOf (D : Deps) (sigType blockLen strongLen : Nat) (data : List Nat) (k : Nat) :
    List Nat :=
  ((List.range k).map (fun i => pairOf D sigType strongLen (blockAt data blockLen i))).flatten

/-- A reader over a finite input that ends cleanly. -/
def Reader.ofBytes (data : List Nat) : Reader := ⟨data, Err.eof⟩

/-- A writer that has accepted nothing yet and never fails. -/
def Writer.fresh : Writer := ⟨[], []⟩

/-- The next `k` calls of `Write` on this writer succeed. -/
def Writer.acceptsNext (w : Writer) (k : Nat) : Prop :=
  ∀ x ∈ w.script.take k, x = none

/-! ## A concrete instance, for evaluating the definitions -/

/-- Stand-in for a digest: `n` bytes that depend on the length and the byte sum
of the data. -/
def standInDigest (n : Nat) (data : List Nat) : List Nat :=
  (List.range n).map (fun i => (data.sum + data.length + i) % 256)

/-- An instance of the missing declarations with the magic numbers of the
librsync signature format and stand-ins for the checksum and the digests. -/
def sampleDeps : Deps where
  BLAKE2_SIG_MAGIC := 0x72730137
  MD4_SIG_MAGIC := 0x72730136
  WeakChecksum := fun data => (data.sum + 31 * data.length) % 2 ^ 32
  blake2bSum256 := fun data => ⟨standInDigest 32 data, by simp [standInDigest]⟩
  md4Sum := fun data => ⟨standInDigest 16 (0 :: data), by simp [standInDigest]⟩
  magic_ne := by decide

/-! ## Auxiliary facts -/

theorem Write_noScript (out p : List Nat) :
    Writer.Write ⟨out, []⟩ p = (⟨out ++ p, []⟩, none) := rfl

theorem binaryWrite_noScript (out : List Nat) (x : Nat) :
    binaryWrite ⟨out, []⟩ x = (⟨out ++ be32 x, []⟩, none) := rfl

theorem be32_length (x : Nat) : (be32 x).length = 4 := rfl

theorem header_length (t b s : Nat) : (header t b s).length = 12 := rfl

theorem beUint32_be32 (x : Nat) (h : x < 2 ^ 32) (rest : List Nat) :
    beUint32 (be32 x ++ rest) = some x := by
  simp only [be32, beUint32, List.cons_append, List.nil_append, Option.some.injEq]
  omega

theorem nativeLen_cases {D : Deps} {t n : Nat} (h : nativeLen D t = some n) :
    (t = D.BLAKE2_SIG_MAGIC ∧ n = 32) ∨
      (t ≠ D.BLAKE2_SIG_MAGIC ∧ t = D.MD4_SIG_MAGIC ∧ n = 16) := by
  unfold nativeLen at h
  by_cases hb : t = D.BLAKE2_SIG_MAGIC
  · left
    rw [if_pos hb] at h
    exact ⟨hb, (Option.some.inj h).symm⟩
  · right
    rw [if_neg hb] at h
    by_cases hm : t = D.MD4_SIG_MAGIC
    · rw [if_pos hm] at h
      exact ⟨hb, hm, (Option.some.inj h).symm⟩
    · rw [if_neg hm] at h
      exact absurd h (by simp)

theorem CalcStrongSum_native {D : Deps} {t n : Nat} (h : nativeLen D t = some n)
    (data : List Nat) (s : Nat) (hs : s ≤ n) :
    CalcStrongSum D data t s = Outcome.ok ((nativeDigest D t data).take s) := by
  unfold CalcStrongSum nativeDigest
  rcases nativeLen_cases h with ⟨hb, hn⟩ | ⟨hb, hm, hn⟩
  · have hl : s ≤ (D.blake2bSum256 data).val.length := by
      rw [(D.blake2bSum256 data).property]; omega
    rw [if_pos hb, if_pos hb]
    exact if_pos hl
  · have hl : s ≤ (D.md4Sum data).val.length := by
      rw [(D.md4Sum data).property]; omega
    rw [if_neg hb, if_neg hb, if_pos hm]
    exact if_pos hl

theorem nativeDigest_length {D : Deps} {t n : Nat} (h : nativeLen D t = some n)
    (data : List Nat) : (nativeDigest D t data).length = n := by
  unfold nativeDigest
  rcases nativeLen_cases h with ⟨hb, hn⟩ | ⟨hb, _, hn⟩
  · rw [if_pos hb, hn]
    exact (D.blake2bSum256 data).property
  · rw [if_neg hb, hn]
    exact (D.md4Sum data).property

theorem pairOf_length {D : Deps} {t n : Nat} (h : nativeLen D t = some n)
    (s : Nat) (hs : s ≤ n) (block : List Nat) : (pairOf D t s block).length = 4 + s := by
  simp [pairOf, be32_length, nativeDigest_length h, hs]

theorem blockAt_succ (data : List Nat) (B i : Nat) :
    blockAt data B (i + 1) = blockAt (data.drop B) B i := by
  simp only [blockAt, List.drop_drop]
  congr 2
  ring

theorem pairsOf_zero (D : Deps) (t B s : Nat) (data : List Nat) :
    pairsOf D t B s data 0 = [] := rfl

theorem pairsOf_succ (D : Deps) (t B s : Nat) (data : List Nat) (k : Nat) :
    pairsOf D t B s data (k + 1) =
      pairOf D t s (data.take B) ++ pairsOf D t B s (data.drop B) k := by
  simp only [pairsOf, List.range_succ_eq_map, List.map_cons, List.flatten_cons, List.map_map]
  congr 2
  · simp [blockAt]
  · apply List.map_congr_left
    intro i _
    simp [blockAt_succ]

theorem pairsOf_length {D : Deps} {t n : Nat} (h : nativeLen D t = some n)
    (B s : Nat) (hs : s ≤ n) (data : List Nat) (k : Nat) :
    (pairsOf D t B s data k).length = k * (4 + s) := by
  induction k generalizing data with
  | zero => simp [pairsOf_zero]
  | succ k ih =>
    rw [pairsOf_succ, List.length_append, pairOf_length h s hs, ih]
    ring

/-- The loop over an input that ends cleanly, with a writer that never fails:
it returns `nil` after one pair per complete block. -/
theorem sigLoop_clean {D : Deps} {t n : Nat} (h : nativeLen D t = some n)
    (B s : Nat) (hB : 0 < B) (hs : s ≤ n) :
    ∀ (fuel : Nat) (data out : List Nat), data.length / B < fuel →
      sigLoop D B s t fuel ⟨data, Err.eof⟩ ⟨out, []⟩ =
        ⟨Status.returned none, ⟨[], Err.eof⟩,
          ⟨out ++ pairsOf D t B s data (data.length / B), []⟩⟩ := by
  intro fuel
  induction fuel with
  | zero => intro data out hf; exact absurd hf (Nat.not_lt_zero _)
  | succ fuel ih =>
    intro data out hf
    by_cases hlen : B ≤ data.length
    · have hdiv : data.length / B = (data.length - B) / B + 1 := by
        rw [Nat.div_eq_sub_div hB hlen]
      have hf1 : (data.drop B).length / B < fuel := by
        rw [List.length_drop]; omega
      have hrec := ih (data.drop B)
        (out ++ be32 (D.WeakChecksum (data.take B)) ++ (nativeDigest D t (data.take B)).take s) hf1
      rw [List.length_drop] at hrec
      simp only [sigLoop, ReadFull, if_pos hlen, binaryWrite_noScript,
        CalcStrongSum_native h _ s hs, Write_noScript]
      rw [hrec, hdiv, pairsOf_succ]
      simp [pairOf, List.append_assoc]
    · have hdiv : data.length / B = 0 := Nat.div_eq_of_lt (by omega)
      have hB0 : B ≠ 0 := by omega
      by_cases hz : data.length = 0 <;>
        simp [sigLoop, ReadFull, hlen, hz, hdiv, pairsOf_zero, hB0]

/-- A whole run over an input that ends cleanly, with a writer that never
fails: the header, then one pair per complete block. -/
theorem Signature_clean {D : Deps} {t n : Nat} (h : nativeLen D t = some n)
    (B s : Nat) (hB : 0 < B) (hs : s ≤ n) (fuel : Nat) (data out : List Nat)
    (hf : data.length / B < fuel) :
    Signature D fuel ⟨data, Err.eof⟩ ⟨out, []⟩ B s t =
      ⟨Status.returned none, ⟨[], Err.eof⟩,
        ⟨out ++ header t B s ++ pairsOf D t B s data (data.length / B), []⟩⟩ := by
  have hloop := sigLoop_clean h B s hB hs fuel data (out ++ be32 t ++ be32 B ++ be32 s) hf
  have hsw : (if t = D.BLAKE2_SIG_MAGIC then some BLAKE2_SUM_LENGTH
      else if t = D.MD4_SIG_MAGIC then some MD4_SUM_LENGTH else none) = some n := h
  have hgt : ¬ s > n := by omega
  simp only [Signature, hsw, hgt, if_false, binaryWrite_noScript, hloop, header]
  simp only [List.append_assoc]

theorem Write_out (w : Writer) (p : List Nat) :
    ∃ q, (w.Write p).1.out = w.out ++ q := by
  unfold Writer.Write
  rcases hsc : w.script with _ | ⟨x, rest⟩
  · exact ⟨p, rfl⟩
  · rcases x with _ | ⟨k, e⟩
    · exact ⟨p, rfl⟩
    · exact ⟨p.take k, rfl⟩

theorem Write_accepted (w : Writer) (p : List Nat) (k : Nat) (h : w.acceptsNext (k + 1)) :
    w.Write p = (⟨w.out ++ p, w.script.tail⟩, none) ∧
      Writer.acceptsNext ⟨w.out ++ p, w.script.tail⟩ k := by
  unfold Writer.acceptsNext at h
  unfold Writer.Write Writer.acceptsNext
  rcases hsc : w.script with _ | ⟨x, rest⟩
  · simp
  · rw [hsc] at h
    have hx : x = none := h x (by simp)
    subst hx
    refine ⟨rfl, ?_⟩
    intro y hy
    exact h y (by simp only [List.take_succ_cons]; exact List.mem_cons_of_mem _ hy)

/-- The loop only ever appends to what the writer already holds. -/
theorem sigLoop_out (D : Deps) (B s t : Nat) :
    ∀ (fuel : Nat) (input : Reader) (w : Writer),
      ∃ q, (sigLoop D B s t fuel input w).output.out = w.out ++ q := by
  intro fuel
  induction fuel with
  | zero => intro input w; exact ⟨[], by simp [sigLoop]⟩
  | succ fuel ih =>
    intro input w
    unfold sigLoop
    rcases hr : ReadFull input B with ⟨input1, data, _ | e⟩
    · obtain ⟨q1, hq1⟩ := Write_out w (be32 (D.WeakChecksum data))
      dsimp only [binaryWrite]
      rcases hw : w.Write (be32 (D.WeakChecksum data)) with ⟨w1, _ | e⟩
      · rw [hw] at hq1
        dsimp only at hq1 ⊢
        rcases hc : CalcStrongSum D data t s with strong | e | _
        · obtain ⟨q2, hq2⟩ := Write_out w1 strong
          obtain ⟨q3, hq3⟩ := ih input1 (w1.Write strong).1
          exact ⟨q1 ++ q2 ++ q3, by simp only [hq3, hq2, hq1, List.append_assoc]⟩
        · obtain ⟨q2, hq2⟩ := Write_out w1 []
          obtain ⟨q3, hq3⟩ := ih input1 (w1.Write []).1
          exact ⟨q1 ++ q2 ++ q3, by simp only [hq3, hq2, hq1, List.append_assoc]⟩
        · exact ⟨q1, hq1⟩
      · rw [hw] at hq1
        exact ⟨q1, hq1⟩
    · by_cases he : e = Err.unexpectedEOF ∨ e = Err.eof
      · exact ⟨[], by simp [he]⟩
      · exact ⟨[], by simp [he]⟩

theorem nativeLen_md4 (D : Deps) : nativeLen D D.MD4_SIG_MAGIC = some 16 := by
  unfold nativeLen
  rw [if_neg (Ne.symm D.magic_ne), if_pos rfl]
  rfl

theorem nativeLen_blake2 (D : Deps) : nativeLen D D.BLAKE2_SIG_MAGIC = some 32 := by
  unfold nativeLen
  rw [if_pos rfl]
  rfl

/-! ## The claims -/

/-- Claim C1, evaluated on the code: on the 5-byte input `[1, 2, 3, 4, 5]` with
`blockLen = 2`, `strongLen = 4` and the MD4 selector, `Signature` returns `nil`
with the header and the pairs of the two complete blocks `[1, 2]` and `[3, 4]`
only.  The short read of the trailing byte `5` ends the loop before anything
is written for it, so the output does not end with a pair over that byte. -/
theorem trailing_short_block_dropped (D : Deps) (fuel : Nat) :
    Signature D (fuel + 3) (Reader.ofBytes [1, 2, 3, 4, 5]) Writer.fresh 2 4 D.MD4_SIG_MAGIC =
      ⟨Status.returned none, ⟨[], Err.eof⟩,
        ⟨header D.MD4_SIG_MAGIC 2 4 ++ pairOf D D.MD4_SIG_MAGIC 4 [1, 2] ++
          pairOf D D.MD4_SIG_MAGIC 4 [3, 4], []⟩⟩ := by
  have h := Signature_clean (nativeLen_md4 D) 2 4 (by decide) (by decide) (fuel + 3)
    [1, 2, 3, 4, 5] [] (by simp)
  rw [Reader.ofBytes, Writer.fresh, h]
  simp [pairsOf, blockAt, List.range_succ]

/-- Claim C2, evaluated on the code: for `L = 5`, `B = 2`, `strongLen = 4` the
output is `12 + 2 * (4 + 4) = 28` bytes long, two pairs, where `ceil(L/B) = 3`
pairs would give 36. -/
theorem five_bytes_give_28_bytes (D : Deps) (fuel : Nat) :
    (Signature D (fuel + 3) (Reader.ofBytes [1, 2, 3, 4, 5]) Writer.fresh 2 4
      D.MD4_SIG_MAGIC).output.out.length = 28 := by
  have h := Signature_clean (nativeLen_md4 D) 2 4 (by decide) (by decide) (fuel + 3)
    [1, 2, 3, 4, 5] [] (by simp)
  rw [Reader.ofBytes, Writer.fresh, h]
  simp only [List.nil_append, List.length_append, header_length,
    pairsOf_length (nativeLen_md4 D) 2 4 (by decide), List.length_cons, List.length_nil]

/-- Claim C3: for a recognized selector, any `blockLen` and a `strongLen` within
the native length, whatever the input and however long the loop runs, the
first 12 bytes written to a writer whose next three calls succeed are the
big-endian encodings of the selector, of `blockLen` and of `strongLen`, and
reading them back as three big-endian 32-bit integers gives these values. -/
theorem header_fidelity (D : Deps) (fuel : Nat) (input : Reader) (w : Writer)
    (blockLen strongLen sigType n : Nat)
    (hsel : nativeLen D sigType = some n) (hs : strongLen ≤ n)
    (hsig : sigType < 2 ^ 32) (hbl : blockLen < 2 ^ 32)
    (hw : w.out = []) (hacc : w.acceptsNext 3) :
    (Signature D fuel input w blockLen strongLen sigType).output.out.take 12 =
        be32 sigType ++ be32 blockLen ++ be32 strongLen ∧
      beUint32 (Signature D fuel input w blockLen strongLen sigType).output.out =
        some sigType ∧
      beUint32 ((Signature D fuel input w blockLen strongLen sigType).output.out.drop 4) =
        some blockLen ∧
      beUint32 ((Signature D fuel input w blockLen strongLen sigType).output.out.drop 8) =
        some strongLen := by
  have hsw : (if sigType = D.BLAKE2_SIG_MAGIC then some BLAKE2_SUM_LENGTH
      else if sigType = D.MD4_SIG_MAGIC then some MD4_SUM_LENGTH else none) = some n := hsel
  have hgt : ¬ strongLen > n := by omega
  have hn : n ≤ 32 := by
    rcases nativeLen_cases hsel with ⟨_, hn⟩ | ⟨_, _, hn⟩ <;> omega
  have hsl : strongLen < 2 ^ 32 := by
    have : (32 : Nat) < 2 ^ 32 := by norm_num
    omega
  have h1 : w.Write (be32 sigType) = (⟨w.out ++ be32 sigType, w.script.tail⟩, none) :=
    (Write_accepted w (be32 sigType) 2 hacc).1
  have a1 : Writer.acceptsNext ⟨w.out ++ be32 sigType, w.script.tail⟩ 2 :=
    (Write_accepted w (be32 sigType) 2 hacc).2
  have h2 : Writer.Write ⟨w.out ++ be32 sigType, w.script.tail⟩ (be32 blockLen) =
      (⟨w.out ++ be32 sigType ++ be32 blockLen, w.script.tail.tail⟩, none) :=
    (Write_accepted _ (be32 blockLen) 1 a1).1
  have a2 : Writer.acceptsNext ⟨w.out ++ be32 sigType ++ be32 blockLen, w.script.tail.tail⟩ 1 :=
    (Write_accepted _ (be32 blockLen) 1 a1).2
  have h3 : Writer.Write ⟨w.out ++ be32 sigType ++ be32 blockLen, w.script.tail.tail⟩
      (be32 strongLen) =
      (⟨w.out ++ be32 sigType ++ be32 blockLen ++ be32 strongLen, w.script.tail.tail.tail⟩,
        none) :=
    (Write_accepted _ (be32 strongLen) 0 a2).1
  obtain ⟨q, hq⟩ := sigLoop_out D blockLen strongLen sigType fuel input
    ⟨w.out ++ be32 sigType ++ be32 blockLen ++ be32 strongLen, w.script.tail.tail.tail⟩
  have hout : (Signature D fuel input w blockLen strongLen sigType).output.out =
      be32 sigType ++ (be32 blockLen ++ (be32 strongLen ++ q)) := by
    simp only [Signature, hsw, hgt, if_false, binaryWrite, h1, h2, h3, hq]
    rw [hw]
    simp only [List.nil_append, List.append_assoc]
  rw [hout]
  refine ⟨?_, beUint32_be32 sigType hsig _, ?_, ?_⟩
  · simp [be32]
  · have : (be32 sigType ++ (be32 blockLen ++ (be32 strongLen ++ q))).drop 4 =
        be32 blockLen ++ (be32 strongLen ++ q) := by simp [be32]
    rw [this]
    exact beUint32_be32 blockLen hbl _
  · have : (be32 sigType ++ (be32 blockLen ++ (be32 strongLen ++ q))).drop 8 =
        be32 strongLen ++ q := by simp [be32]
    rw [this]
    exact beUint32_be32 strongLen hsl _

/-- Evaluation of `header_fidelity` on a 3-byte input with `blockLen = 2`,
`strongLen = 4` and the MD4 selector. -/
theorem header_fidelity_witness :
    (Signature sampleDeps 5 (Reader.ofBytes [1, 2, 3]) Writer.fresh 2 4
        sampleDeps.MD4_SIG_MAGIC).output.out.take 12 =
        be32 sampleDeps.MD4_SIG_MAGIC ++ be32 2 ++ be32 4 ∧
      beUint32 (Signature sampleDeps 5 (Reader.ofBytes [1, 2, 3]) Writer.fresh 2 4
        sampleDeps.MD4_SIG_MAGIC).output.out = some sampleDeps.MD4_SIG_MAGIC ∧
      beUint32 ((Signature sampleDeps 5 (Reader.ofBytes [1, 2, 3]) Writer.fresh 2 4
        sampleDeps.MD4_SIG_MAGIC).output.out.drop 4) = some 2 ∧
      beUint32 ((Signature sampleDeps 5 (Reader.ofBytes [1, 2, 3]) Writer.fresh 2 4
        sampleDeps.MD4_SIG_MAGIC).output.out.drop 8) = some 4 :=
  header_fidelity sampleDeps 5 (Reader.ofBytes [1, 2, 3]) Writer.fresh 2 4
    sampleDeps.MD4_SIG_MAGIC 16 (by decide) (by decide) (by decide) (by decide) rfl
    (by simp [Writer.acceptsNext, Writer.fresh])

/-- Claim C4: for an input of exactly `k` blocks (`blockLen > 0`, recognized
selector, `strongLen` within the native length, streams that do not fail) and
more than `k` iterations allowed, `Signature` returns `nil` having read the
whole input, and the output is the header followed, for `i = 0 .. k-1` in this
order, by the big-endian weak checksum of block `i` and the first `strongLen`
bytes of its native digest. -/
theorem whole_blocks_signature (D : Deps) (fuel : Nat) (data : List Nat)
    (blockLen strongLen sigType n k : Nat)
    (hB : 0 < blockLen) (hsel : nativeLen D sigType = some n) (hs : strongLen ≤ n)
    (hlen : data.length = k * blockLen) (hf : k < fuel) :
    Signature D fuel (Reader.ofBytes data) Writer.fresh blockLen strongLen sigType =
      ⟨Status.returned none, ⟨[], Err.eof⟩,
        ⟨header sigType blockLen strongLen ++
          ((List.range k).map (fun i =>
            be32 (D.WeakChecksum (blockAt data blockLen i)) ++
              (nativeDigest D sigType (blockAt data blockLen i)).take strongLen)).flatten,
          []⟩⟩ := by
  have hk : data.length / blockLen = k := by
    rw [hlen]; exact Nat.mul_div_cancel k hB
  have h := Signature_clean hsel blockLen strongLen hB hs fuel data [] (by omega)
  rw [Reader.ofBytes, Writer.fresh, h, hk]
  simp only [List.nil_append, pairsOf, pairOf]

/-- Evaluation of `whole_blocks_signature` on the two blocks of `[1, 2, 3, 4]`. -/
theorem whole_blocks_signature_witness :
    Signature sampleDeps 3 (Reader.ofBytes [1, 2, 3, 4]) Writer.fresh 2 4
        sampleDeps.MD4_SIG_MAGIC =
      ⟨Status.returned none, ⟨[], Err.eof⟩,
        ⟨header sampleDeps.MD4_SIG_MAGIC 2 4 ++
          ((List.range 2).map (fun i =>
            be32 (sampleDeps.WeakChecksum (blockAt [1, 2, 3, 4] 2 i)) ++
              (nativeDigest sampleDeps sampleDeps.MD4_SIG_MAGIC
                (blockAt [1, 2, 3, 4] 2 i)).take 4)).flatten,
          []⟩⟩ :=
  whole_blocks_signature sampleDeps 3 [1, 2, 3, 4] 2 4 sampleDeps.MD4_SIG_MAGIC 16 2
    (by decide) (by decide) (by decide) (by decide) (by decide)

/-- Claim C5: with a recognized selector and `strongLen` above its native digest
length (32 for the BLAKE2 selector, 16 for the MD4 selector), `Signature`
returns an error and leaves the output as it was: no `Write` has taken
place, whatever the input, `blockLen` and the number of iterations allowed. -/
theorem strongLen_above_native_rejected (D : Deps) (fuel : Nat) (input : Reader)
    (output : Writer) (blockLen strongLen sigType : Nat)
    (h : (sigType = D.BLAKE2_SIG_MAGIC ∧ 32 < strongLen) ∨
      (sigType = D.MD4_SIG_MAGIC ∧ 16 < strongLen)) :
    (Signature D fuel input output blockLen strongLen sigType).status =
        Status.returned (some (Err.invalidStrongLen strongLen sigType)) ∧
      (Signature D fuel input output blockLen strongLen sigType).output = output := by
  rcases h with ⟨ht, hl⟩ | ⟨ht, hl⟩
  · subst ht
    simp [Signature, BLAKE2_SUM_LENGTH, hl]
  · subst ht
    simp [Signature, MD4_SUM_LENGTH, Ne.symm D.magic_ne, hl]

/-- Evaluation of `strongLen_above_native_rejected`: `strongLen = 17` with the
MD4 selector, on a writer that already holds a byte. -/
theorem strongLen_above_native_rejected_witness :
    (Signature sampleDeps 4 (Reader.ofBytes [1, 2, 3]) ⟨[9], []⟩ 2 17
        sampleDeps.MD4_SIG_MAGIC).status =
        Status.returned (some (Err.invalidStrongLen 17 sampleDeps.MD4_SIG_MAGIC)) ∧
      (Signature sampleDeps 4 (Reader.ofBytes [1, 2, 3]) ⟨[9], []⟩ 2 17
        sampleDeps.MD4_SIG_MAGIC).output = ⟨[9], []⟩ :=
  strongLen_above_native_rejected sampleDeps 4 (Reader.ofBytes [1, 2, 3]) ⟨[9], []⟩ 2 17
    sampleDeps.MD4_SIG_MAGIC (Or.inr ⟨rfl, by decide⟩)

/-- Claim C6: with a selector that is neither the BLAKE2 nor the MD4 magic
number, `Signature` returns an error and leaves the output as it was: no
`Write` has taken place, whatever the input, `blockLen` and `strongLen`. -/
theorem unknown_selector_rejected (D : Deps) (fuel : Nat) (input : Reader)
    (output : Writer) (blockLen strongLen sigType : Nat)
    (hb : sigType ≠ D.BLAKE2_SIG_MAGIC) (hm : sigType ≠ D.MD4_SIG_MAGIC) :
    (Signature D fuel input output blockLen strongLen sigType).status =
        Status.returned (some (Err.invalidSigType sigType)) ∧
      (Signature D fuel input output blockLen strongLen sigType).output = output := by
  simp [Signature, hb, hm]

/-- Evaluation of `unknown_selector_rejected` at the selector 7. -/
theorem unknown_selector_rejected_witness :
    (Signature sampleDeps 4 (Reader.ofBytes [1, 2, 3]) ⟨[9], []⟩ 2 4 7).status =
        Status.returned (some (Err.invalidSigType 7)) ∧
      (Signature sampleDeps 4 (Reader.ofBytes [1, 2, 3]) ⟨[9], []⟩ 2 4 7).output =
        ⟨[9], []⟩ :=
  unknown_selector_rejected sampleDeps 4 (Reader.ofBytes [1, 2, 3]) ⟨[9], []⟩ 2 4 7
    (by decide) (by decide)

/-- Claim C7, evaluated on the code: the input is the single block `[1, 2]`
(`blockLen = 2`, `strongLen = 4`, MD4 selector) and the fifth `Write` on the
output, the one that carries the strong digest, fails with an error and
accepts nothing.  `Signature` goes on, finds the end of the input and returns
`nil`; the output holds the header and the weak checksum only. -/
theorem strong_write_failure_swallowed (D : Deps) (fuel : Nat) :
    Signature D (fuel + 2) (Reader.ofBytes [1, 2])
        ⟨[], [none, none, none, none, some (0, Err.other 7)]⟩ 2 4 D.MD4_SIG_MAGIC =
      ⟨Status.returned none, ⟨[], Err.eof⟩,
        ⟨header D.MD4_SIG_MAGIC 2 4 ++ be32 (D.WeakChecksum [1, 2]), []⟩⟩ := by
  have hc := CalcStrongSum_native (nativeLen_md4 D) [1, 2] 4 (by decide)
  simp [Signature, sigLoop, ReadFull, binaryWrite, Writer.Write, Reader.ofBytes, header,
    Ne.symm D.magic_ne, MD4_SUM_LENGTH, hc]

/-- Claim C8: for an empty input, a recognized selector, `blockLen > 0` and
`strongLen` within the native length, `Signature` returns `nil` as soon as
one iteration is allowed, and the output is exactly the 12-byte header. -/
theorem empty_input_header_only (D : Deps) (fuel : Nat)
    (blockLen strongLen sigType n : Nat)
    (hB : 0 < blockLen) (hsel : nativeLen D sigType = some n) (hs : strongLen ≤ n)
    (hf : 0 < fuel) :
    Signature D fuel (Reader.ofBytes []) Writer.fresh blockLen strongLen sigType =
        ⟨Status.returned none, Reader.ofBytes [],
          ⟨header sigType blockLen strongLen, []⟩⟩ ∧
      (header sigType blockLen strongLen).length = 12 := by
  have h := Signature_clean hsel blockLen strongLen hB hs fuel [] [] (by simpa using hf)
  rw [Reader.ofBytes, Writer.fresh, h]
  simp [pairsOf_zero, header_length]

/-- Evaluation of `empty_input_header_only` with `blockLen = 2048`,
`strongLen = 32` and the BLAKE2 selector. -/
theorem empty_input_header_only_witness :
    Signature sampleDeps 1 (Reader.ofBytes []) Writer.fresh 2048 32
        sampleDeps.BLAKE2_SIG_MAGIC =
        ⟨Status.returned none, Reader.ofBytes [],
          ⟨header sampleDeps.BLAKE2_SIG_MAGIC 2048 32, []⟩⟩ ∧
      (header sampleDeps.BLAKE2_SIG_MAGIC 2048 32).length = 12 :=
  empty_input_header_only sampleDeps 1 2048 32 sampleDeps.BLAKE2_SIG_MAGIC 32
    (by decide) (by decide) (by decide) (by decide)

/-- Claim C9: for every block, every recognized selector and every length not
above the native digest size of the selector, `CalcStrongSum` succeeds and
returns the first `length` bytes of the full native digest of the block, which
is BLAKE2b-256 for the BLAKE2 selector and MD4 for the MD4 selector; the result
has exactly `length` bytes. -/
theorem CalcStrongSum_truncates (D : Deps) (block : List Nat) (sigType length n : Nat)
    (hsel : nativeLen D sigType = some n) (hl : length ≤ n) :
    CalcStrongSum D block sigType length =
        Outcome.ok ((nativeDigest D sigType block).take length) ∧
      ((nativeDigest D sigType block).take length).length = length ∧
      (sigType = D.BLAKE2_SIG_MAGIC →
        n = 32 ∧ nativeDigest D sigType block = (D.blake2bSum256 block).val) ∧
      (sigType = D.MD4_SIG_MAGIC →
        n = 16 ∧ nativeDigest D sigType block = (D.md4Sum block).val) := by
  refine ⟨CalcStrongSum_native hsel block length hl, ?_, ?_, ?_⟩
  · rw [List.length_take, nativeDigest_length hsel]
    exact Nat.min_eq_left hl
  · intro hb
    rcases nativeLen_cases hsel with ⟨_, hn⟩ | ⟨hnb, _, _⟩
    · exact ⟨hn, by unfold nativeDigest; rw [if_pos hb]⟩
    · exact absurd hb hnb
  · intro hm
    have hnb : sigType ≠ D.BLAKE2_SIG_MAGIC := by
      rw [hm]; exact Ne.symm D.magic_ne
    rcases nativeLen_cases hsel with ⟨hb, _⟩ | ⟨_, _, hn⟩
    · exact absurd hb hnb
    · exact ⟨hn, by unfold nativeDigest; rw [if_neg hnb]⟩

/-- Evaluation of `CalcStrongSum_truncates`: 8 bytes under the MD4 selector. -/
theorem CalcStrongSum_truncates_witness :
    CalcStrongSum sampleDeps [1, 2, 3] sampleDeps.MD4_SIG_MAGIC 8 =
        Outcome.ok ((nativeDigest sampleDeps sampleDeps.MD4_SIG_MAGIC [1, 2, 3]).take 8) ∧
      ((nativeDigest sampleDeps sampleDeps.MD4_SIG_MAGIC [1, 2, 3]).take 8).length = 8 ∧
      (sampleDeps.MD4_SIG_MAGIC = sampleDeps.BLAKE2_SIG_MAGIC →
        16 = 32 ∧ nativeDigest sampleDeps sampleDeps.MD4_SIG_MAGIC [1, 2, 3] =
          (sampleDeps.blake2bSum256 [1, 2, 3]).val) ∧
      (sampleDeps.MD4_SIG_MAGIC = sampleDeps.MD4_SIG_MAGIC →
        16 = 16 ∧ nativeDigest sampleDeps sampleDeps.MD4_SIG_MAGIC [1, 2, 3] =
          (sampleDeps.md4Sum [1, 2, 3]).val) :=
  CalcStrongSum_truncates sampleDeps [1, 2, 3] sampleDeps.MD4_SIG_MAGIC 8 16
    (by decide) (by decide)

/-- Claim C10: for every block and every length, `CalcStrongSum` returns the
invalid-selector error, and so no digest, when the selector is neither of the
two magic numbers; and whenever it returns an error at all, for a length
within the native size or any other, the selector is neither of the two. -/
theorem CalcStrongSum_error_iff (D : Deps) (block : List Nat) (sigType length : Nat) :
    (sigType ≠ D.BLAKE2_SIG_MAGIC → sigType ≠ D.MD4_SIG_MAGIC →
        CalcStrongSum D block sigType length =
          Outcome.error (Err.invalidSigType sigType)) ∧
      ((∃ e, CalcStrongSum D block sigType length = Outcome.error e) →
        sigType ≠ D.BLAKE2_SIG_MAGIC ∧ sigType ≠ D.MD4_SIG_MAGIC) := by
  constructor
  · intro hb hm
    unfold CalcStrongSum
    rw [if_neg hb, if_neg hm]
  · rintro ⟨e, he⟩
    unfold CalcStrongSum at he
    by_cases hb : sigType = D.BLAKE2_SIG_MAGIC
    · rw [if_pos hb] at he
      dsimp only at he
      split at he <;> cases he
    · rw [if_neg hb] at he
      by_cases hm : sigType = D.MD4_SIG_MAGIC
      · rw [if_pos hm] at he
        dsimp only at he
        split at he <;> cases he
      · exact ⟨hb, hm⟩

/-- Evaluation of `CalcStrongSum_error_iff` at the selector 7. -/
theorem CalcStrongSum_error_iff_witness :
    CalcStrongSum sampleDeps [1, 2, 3] 7 4 = Outcome.error (Err.invalidSigType 7) :=
  (CalcStrongSum_error_iff sampleDeps [1, 2, 3] 7 4).1 (by decide) (by decide)

/-! ## Further auxiliary facts -/

/-- A run whose `switch` falls to the default case. -/
theorem Signature_unknown {D : Deps} {t : Nat} (h : nativeLen D t = none)
    (fuel : Nat) (input : Reader) (output : Writer) (B s : Nat) :
    Signature D fuel input output B s t =
      ⟨Status.returned (some (Err.invalidSigType t)), input, output⟩ := by
  have hsw : (if t = D.BLAKE2_SIG_MAGIC then some BLAKE2_SUM_LENGTH
      else if t = D.MD4_SIG_MAGIC then some MD4_SUM_LENGTH else none) = none := h
  simp only [Signature, hsw]

/-- A run whose `strongLen` is above `maxStrongLen`. -/
theorem Signature_tooLong {D : Deps} {t n : Nat} (h : nativeLen D t = some n)
    (fuel : Nat) (input : Reader) (output : Writer) (B s : Nat) (hs : n < s) :
    Signature D fuel input output B s t =
      ⟨Status.returned (some (Err.invalidStrongLen s t)), input, output⟩ := by
  have hsw : (if t = D.BLAKE2_SIG_MAGIC then some BLAKE2_SUM_LENGTH
      else if t = D.MD4_SIG_MAGIC then some MD4_SUM_LENGTH else none) = some n := h
  have hgt : s > n := hs
  simp only [Signature, hsw, hgt, if_true]

/-- A run that passes the validation, on a writer that never fails: the three
header fields go out and the loop starts. -/
theorem Signature_valid {D : Deps} {t n : Nat} (h : nativeLen D t = some n)
    (fuel : Nat) (input : Reader) (out : List Nat) (B s : Nat) (hs : s ≤ n) :
    Signature D fuel input ⟨out, []⟩ B s t =
      sigLoop D B s t fuel input ⟨out ++ be32 t ++ be32 B ++ be32 s, []⟩ := by
  have hsw : (if t = D.BLAKE2_SIG_MAGIC then some BLAKE2_SUM_LENGTH
      else if t = D.MD4_SIG_MAGIC then some MD4_SUM_LENGTH else none) = some n := h
  have hgt : ¬ s > n := by omega
  simp only [Signature, hsw, hgt, if_false, binaryWrite_noScript]

/-- The loop never stops with a fault once the validation has passed. -/
theorem sigLoop_noFault {D : Deps} {t n : Nat} (h : nativeLen D t = some n)
    (B s : Nat) (hs : s ≤ n) :
    ∀ (fuel : Nat) (input : Reader) (w : Writer),
      (sigLoop D B s t fuel input w).status ≠ Status.fault := by
  intro fuel
  induction fuel with
  | zero => intro input w; simp [sigLoop]
  | succ fuel ih =>
    intro input w
    unfold sigLoop
    rcases hr : ReadFull input B with ⟨input1, data, _ | e⟩
    · dsimp only [binaryWrite]
      rcases hw : w.Write (be32 (D.WeakChecksum data)) with ⟨w1, _ | e⟩
      · dsimp only
        rw [CalcStrongSum_native h data s hs]
        exact ih input1 _
      · simp
    · by_cases he : e = Err.unexpectedEOF ∨ e = Err.eof
      · simp [he]
      · simp [he]

/-- With a writer that never fails, the loop leaves the writer with a whole
number of pairs of `4 + s` bytes added, whatever the reader does and however
long the loop runs. -/
theorem sigLoop_length {D : Deps} {t n : Nat} (h : nativeLen D t = some n)
    (B s : Nat) (hs : s ≤ n) :
    ∀ (fuel : Nat) (input : Reader) (out : List Nat),
      ∃ k, (sigLoop D B s t fuel input ⟨out, []⟩).output.out.length =
        out.length + k * (4 + s) := by
  intro fuel
  induction fuel with
  | zero => intro input out; exact ⟨0, by simp [sigLoop]⟩
  | succ fuel ih =>
    intro input out
    unfold sigLoop
    rcases hr : ReadFull input B with ⟨input1, data, _ | e⟩
    · dsimp only
      rw [binaryWrite_noScript]
      dsimp only
      rw [CalcStrongSum_native h data s hs]
      dsimp only
      rw [Write_noScript]
      obtain ⟨k, hk⟩ := ih input1
        (out ++ be32 (D.WeakChecksum data) ++ (nativeDigest D t data).take s)
      refine ⟨k + 1, ?_⟩
      rw [hk]
      simp only [List.length_append, be32_length, List.length_take,
        nativeDigest_length h, Nat.min_eq_left hs]
      ring
    · by_cases he : e = Err.unexpectedEOF ∨ e = Err.eof
      · exact ⟨0, by simp [he]⟩
      · exact ⟨0, by simp [he]⟩

/-- The loop over a reader whose `Read` fails with `e` once its data is used
up, where `e` is neither of the two end-of-stream sentinels: the loop returns
`e` after one pair per complete block. -/
theorem sigLoop_readError {D : Deps} {t n : Nat} (h : nativeLen D t = some n)
    (B s : Nat) (hB : 0 < B) (hs : s ≤ n) (e : Err)
    (he1 : e ≠ Err.eof) (he2 : e ≠ Err.unexpectedEOF) :
    ∀ (fuel : Nat) (data out : List Nat), data.length / B < fuel →
      sigLoop D B s t fuel ⟨data, e⟩ ⟨out, []⟩ =
        ⟨Status.returned (some e), ⟨[], e⟩,
          ⟨out ++ pairsOf D t B s data (data.length / B), []⟩⟩ := by
  intro fuel
  induction fuel with
  | zero => intro data out hf; exact absurd hf (Nat.not_lt_zero _)
  | succ fuel ih =>
    intro data out hf
    by_cases hlen : B ≤ data.length
    · have hdiv : data.length / B = (data.length - B) / B + 1 := by
        rw [Nat.div_eq_sub_div hB hlen]
      have hf1 : (data.drop B).length / B < fuel := by
        rw [List.length_drop]; omega
      have hrec := ih (data.drop B)
        (out ++ be32 (D.WeakChecksum (data.take B)) ++ (nativeDigest D t (data.take B)).take s) hf1
      rw [List.length_drop] at hrec
      simp only [sigLoop, ReadFull, if_pos hlen, binaryWrite_noScript,
        CalcStrongSum_native h _ s hs, Write_noScript]
      rw [hrec, hdiv, pairsOf_succ]
      simp [pairOf, List.append_assoc]
    · have hdiv : data.length / B = 0 := Nat.div_eq_of_lt (by omega)
      simp [sigLoop, ReadFull, hlen, hdiv, pairsOf_zero, he1, he2]

/-- The loop with `blockLen = 0`: every iteration reads the empty block without
touching the reader and adds the pair of the empty block, so after `fuel`
iterations the loop is still running. -/
theorem sigLoop_zeroBlock {D : Deps} {t n : Nat} (h : nativeLen D t = some n)
    (s : Nat) (hs : s ≤ n) :
    ∀ (fuel : Nat) (input : Reader) (out : List Nat),
      sigLoop D 0 s t fuel input ⟨out, []⟩ =
        ⟨Status.running, input,
          ⟨out ++ (List.replicate fuel (pairOf D t s [])).flatten, []⟩⟩ := by
  intro fuel
  induction fuel with
  | zero => intro input out; simp [sigLoop]
  | succ fuel ih =>
    intro input out
    simp only [sigLoop, ReadFull, Nat.zero_le, if_true, List.drop_zero, List.take_zero,
      binaryWrite_noScript, CalcStrongSum_native h _ s hs, Write_noScript]
    rw [ih]
    simp [pairOf, List.replicate_succ, List.append_assoc]

/-- What a run that passes the validation has written, on a writer that starts
empty and accepts its next three calls: the three header fields first. -/
theorem Signature_out_header {D : Deps} {t n : Nat} (h : nativeLen D t = some n)
    (fuel : Nat) (input : Reader) (w : Writer) (B s : Nat) (hs : s ≤ n)
    (hw : w.out = []) (hacc : w.acceptsNext 3) :
    ∃ q, (Signature D fuel input w B s t).output.out =
      be32 t ++ (be32 B ++ (be32 s ++ q)) := by
  have hsw : (if t = D.BLAKE2_SIG_MAGIC then some BLAKE2_SUM_LENGTH
      else if t = D.MD4_SIG_MAGIC then some MD4_SUM_LENGTH else none) = some n := h
  have hgt : ¬ s > n := by omega
  have h1 : w.Write (be32 t) = (⟨w.out ++ be32 t, w.script.tail⟩, none) :=
    (Write_accepted w (be32 t) 2 hacc).1
  have a1 : Writer.acceptsNext ⟨w.out ++ be32 t, w.script.tail⟩ 2 :=
    (Write_accepted w (be32 t) 2 hacc).2
  have h2 : Writer.Write ⟨w.out ++ be32 t, w.script.tail⟩ (be32 B) =
      (⟨w.out ++ be32 t ++ be32 B, w.script.tail.tail⟩, none) :=
    (Write_accepted _ (be32 B) 1 a1).1
  have a2 : Writer.acceptsNext ⟨w.out ++ be32 t ++ be32 B, w.script.tail.tail⟩ 1 :=
    (Write_accepted _ (be32 B) 1 a1).2
  have h3 : Writer.Write ⟨w.out ++ be32 t ++ be32 B, w.script.tail.tail⟩ (be32 s) =
      (⟨w.out ++ be32 t ++ be32 B ++ be32 s, w.script.tail.tail.tail⟩, none) :=
    (Write_accepted _ (be32 s) 0 a2).1
  obtain ⟨q, hq⟩ := sigLoop_out D B s t fuel input
    ⟨w.out ++ be32 t ++ be32 B ++ be32 s, w.script.tail.tail.tail⟩
  refine ⟨q, ?_⟩
  simp only [Signature, hsw, hgt, if_false, binaryWrite, h1, h2, h3, hq]
  rw [hw]
  simp only [List.nil_append, List.append_assoc]

/-! ## The claims, continued -/

/-- Claim C11: for every block, every recognized selector and all lengths
`l1 ≤ l2` within the native digest size, both calls of `CalcStrongSum` succeed
and the digest of length `l1` is the first `l1` bytes of the digest of length
`l2`: the longer one is the shorter one followed by further bytes. -/
theorem CalcStrongSum_shorter_starts_longer (D : Deps) (block : List Nat)
    (sigType l1 l2 n : Nat)
    (hsel : nativeLen D sigType = some n) (h12 : l1 ≤ l2) (h2 : l2 ≤ n) :
    ∃ d1 d2, CalcStrongSum D block sigType l1 = Outcome.ok d1 ∧
      CalcStrongSum D block sigType l2 = Outcome.ok d2 ∧
      d1 = d2.take l1 ∧ ∃ rest, d2 = d1 ++ rest := by
  refine ⟨(nativeDigest D sigType block).take l1, (nativeDigest D sigType block).take l2,
    CalcStrongSum_native hsel block l1 (by omega), CalcStrongSum_native hsel block l2 h2,
    ?_, ?_⟩
  · rw [List.take_take, Nat.min_eq_left h12]
  · refine ⟨((nativeDigest D sigType block).take l2).drop l1, ?_⟩
    have hpre : (nativeDigest D sigType block).take l1 =
        ((nativeDigest D sigType block).take l2).take l1 := by
      rw [List.take_take, Nat.min_eq_left h12]
    rw [hpre, List.take_append_drop]

/-- Evaluation of `CalcStrongSum_shorter_starts_longer`: the MD4 selector with
the lengths 8 and 16. -/
theorem CalcStrongSum_shorter_starts_longer_witness :
    ∃ d1 d2, CalcStrongSum sampleDeps [1, 2, 3] sampleDeps.MD4_SIG_MAGIC 8 = Outcome.ok d1 ∧
      CalcStrongSum sampleDeps [1, 2, 3] sampleDeps.MD4_SIG_MAGIC 16 = Outcome.ok d2 ∧
      d1 = d2.take 8 ∧ ∃ rest, d2 = d1 ++ rest :=
  CalcStrongSum_shorter_starts_longer sampleDeps [1, 2, 3] sampleDeps.MD4_SIG_MAGIC 8 16 16
    (by decide) (by decide) (by decide)

/-- The pair width on a writer that never fails: whenever `Signature` returns
`nil` on such a writer, for any reader, every strong digest it computes has
exactly `strongLen` bytes and the output is the 12 header bytes followed by a
whole number of pairs of `4 + strongLen` bytes.  Writers that fail are not
covered by this statement. -/
theorem pairs_have_fixed_width (D : Deps) (fuel : Nat) (input : Reader)
    (blockLen strongLen sigType : Nat)
    (hsucc : (Signature D fuel input Writer.fresh blockLen strongLen sigType).status =
      Status.returned none) :
    (∀ block, ∃ strong, CalcStrongSum D block sigType strongLen = Outcome.ok strong ∧
        strong.length = strongLen) ∧
      (∃ k, (Signature D fuel input Writer.fresh blockLen strongLen sigType).output.out.length =
        12 + k * (4 + strongLen)) ∧
      ((Signature D fuel input Writer.fresh blockLen strongLen sigType).output.out.length - 12) %
        (4 + strongLen) = 0 := by
  rcases hn : nativeLen D sigType with _ | n
  · rw [Signature_unknown hn] at hsucc
    simp at hsucc
  · by_cases hs : strongLen ≤ n
    · have hlen : ∃ k, (Signature D fuel input Writer.fresh blockLen strongLen
          sigType).output.out.length = 12 + k * (4 + strongLen) := by
        obtain ⟨k, hk⟩ := sigLoop_length hn blockLen strongLen hs fuel input
          ([] ++ be32 sigType ++ be32 blockLen ++ be32 strongLen)
        refine ⟨k, ?_⟩
        rw [Writer.fresh, Signature_valid hn fuel input [] blockLen strongLen hs, hk]
        simp [be32_length]
      refine ⟨?_, hlen, ?_⟩
      · intro block
        refine ⟨_, CalcStrongSum_native hn block strongLen hs, ?_⟩
        rw [List.length_take, nativeDigest_length hn]
        exact Nat.min_eq_left hs
      · obtain ⟨k, hk⟩ := hlen
        rw [hk, Nat.add_sub_cancel_left]
        exact Nat.mul_mod_left k (4 + strongLen)
    · rw [Signature_tooLong hn fuel input Writer.fresh blockLen strongLen (by omega)] at hsucc
      simp at hsucc

/-- Evaluation of `pairs_have_fixed_width` on a 5-byte input with `blockLen = 2`
and `strongLen = 4`. -/
theorem pairs_have_fixed_width_witness :
    (∀ block, ∃ strong, CalcStrongSum sampleDeps block sampleDeps.MD4_SIG_MAGIC 4 =
        Outcome.ok strong ∧ strong.length = 4) ∧
      (∃ k, (Signature sampleDeps 4 (Reader.ofBytes [1, 2, 3, 4, 5]) Writer.fresh 2 4
        sampleDeps.MD4_SIG_MAGIC).output.out.length = 12 + k * (4 + 4)) ∧
      ((Signature sampleDeps 4 (Reader.ofBytes [1, 2, 3, 4, 5]) Writer.fresh 2 4
        sampleDeps.MD4_SIG_MAGIC).output.out.length - 12) % (4 + 4) = 0 :=
  pairs_have_fixed_width sampleDeps 4 (Reader.ofBytes [1, 2, 3, 4, 5]) 2 4
    sampleDeps.MD4_SIG_MAGIC (by decide)

/-- Claim C12, evaluated on the code: the input is the two blocks `[1, 2]` and
`[3, 4]` (`blockLen = 2`, `strongLen = 4`, MD4 selector) and the seventh `Write`
on the output, the one that carries the strong digest of the second block,
accepts 2 of its 4 bytes and returns an error.  `Signature` returns `nil`, so
the run counts as successful, yet the second strong digest in the output has
2 bytes instead of `strongLen = 4`: the output is 26 bytes long and what
follows the header, 14 bytes, is not a whole number of pairs of 8 bytes. -/
theorem torn_pair_reported_as_success (D : Deps) (fuel : Nat) :
    Signature D (fuel + 3) (Reader.ofBytes [1, 2, 3, 4])
        ⟨[], [none, none, none, none, none, none, some (2, Err.other 7)]⟩ 2 4
        D.MD4_SIG_MAGIC =
        ⟨Status.returned none, ⟨[], Err.eof⟩,
          ⟨header D.MD4_SIG_MAGIC 2 4 ++ pairOf D D.MD4_SIG_MAGIC 4 [1, 2] ++
            be32 (D.WeakChecksum [3, 4]) ++ (nativeDigest D D.MD4_SIG_MAGIC [3, 4]).take 2,
            []⟩⟩ ∧
      (Signature D (fuel + 3) (Reader.ofBytes [1, 2, 3, 4])
        ⟨[], [none, none, none, none, none, none, some (2, Err.other 7)]⟩ 2 4
        D.MD4_SIG_MAGIC).output.out.length = 26 ∧
      ((Signature D (fuel + 3) (Reader.ofBytes [1, 2, 3, 4])
        ⟨[], [none, none, none, none, none, none, some (2, Err.other 7)]⟩ 2 4
        D.MD4_SIG_MAGIC).output.out.length - 12) % (4 + 4) = 6 := by
  have hc1 := CalcStrongSum_native (nativeLen_md4 D) [1, 2] 4 (by decide)
  have hc2 := CalcStrongSum_native (nativeLen_md4 D) [3, 4] 4 (by decide)
  have hrun : Signature D (fuel + 3) (Reader.ofBytes [1, 2, 3, 4])
      ⟨[], [none, none, none, none, none, none, some (2, Err.other 7)]⟩ 2 4
      D.MD4_SIG_MAGIC =
      ⟨Status.returned none, ⟨[], Err.eof⟩,
        ⟨header D.MD4_SIG_MAGIC 2 4 ++ pairOf D D.MD4_SIG_MAGIC 4 [1, 2] ++
          be32 (D.WeakChecksum [3, 4]) ++ (nativeDigest D D.MD4_SIG_MAGIC [3, 4]).take 2,
          []⟩⟩ := by
    simp [Signature, sigLoop, ReadFull, binaryWrite, Writer.Write, Reader.ofBytes, header,
      pairOf, Ne.symm D.magic_ne, MD4_SUM_LENGTH, hc1, hc2, List.take_take]
  have hlen : (header D.MD4_SIG_MAGIC 2 4 ++ pairOf D D.MD4_SIG_MAGIC 4 [1, 2] ++
      be32 (D.WeakChecksum [3, 4]) ++ (nativeDigest D D.MD4_SIG_MAGIC [3, 4]).take 2).length =
      26 := by
    simp only [List.length_append, header_length, be32_length, List.length_take,
      pairOf_length (nativeLen_md4 D) 4 (by decide), nativeDigest_length (nativeLen_md4 D)]
    rfl
  rw [hrun]
  exact ⟨rfl, hlen, by rw [hlen]⟩

/-- Claim C13 fails on the code: called with `blockLen = 0`, `Signature` passes
its validation and writes a header whose block length field is 0. -/
theorem header_with_zero_blockLen :
    (Signature sampleDeps 1 (Reader.ofBytes [1, 2]) Writer.fresh 0 4
        sampleDeps.MD4_SIG_MAGIC).output.out.take 12 =
        header sampleDeps.MD4_SIG_MAGIC 0 4 ∧
      beUint32 ((Signature sampleDeps 1 (Reader.ofBytes [1, 2]) Writer.fresh 0 4
        sampleDeps.MD4_SIG_MAGIC).output.out.drop 4) = some 0 := by
  decide

/-- Claim C13 as amended: the block length field of every header `Signature`
emits is the `blockLen` it was called with, so the field is greater than 0
exactly when the argument is. -/
theorem header_blockLen_field (D : Deps) (fuel : Nat) (input : Reader) (w : Writer)
    (blockLen strongLen sigType n : Nat)
    (hsel : nativeLen D sigType = some n) (hs : strongLen ≤ n)
    (hbl : blockLen < 2 ^ 32) (hw : w.out = []) (hacc : w.acceptsNext 3) :
    beUint32 ((Signature D fuel input w blockLen strongLen sigType).output.out.drop 4) =
        some blockLen ∧
      ∀ b, beUint32 ((Signature D fuel input w blockLen strongLen sigType).output.out.drop 4) =
        some b → (0 < b ↔ 0 < blockLen) := by
  obtain ⟨q, hq⟩ := Signature_out_header hsel fuel input w blockLen strongLen hs hw hacc
  have hfield : beUint32 ((Signature D fuel input w blockLen strongLen sigType).output.out.drop 4) =
      some blockLen := by
    rw [hq]
    have : (be32 sigType ++ (be32 blockLen ++ (be32 strongLen ++ q))).drop 4 =
        be32 blockLen ++ (be32 strongLen ++ q) := by simp [be32]
    rw [this]
    exact beUint32_be32 blockLen hbl _
  refine ⟨hfield, ?_⟩
  intro b hb
  rw [hfield] at hb
  rw [← Option.some.inj hb]

/-- Evaluation of `header_blockLen_field` with `blockLen = 2048`. -/
theorem header_blockLen_field_witness :
    beUint32 ((Signature sampleDeps 2 (Reader.ofBytes [1, 2, 3]) Writer.fresh 2048 32
        sampleDeps.BLAKE2_SIG_MAGIC).output.out.drop 4) = some 2048 ∧
      ∀ b, beUint32 ((Signature sampleDeps 2 (Reader.ofBytes [1, 2, 3]) Writer.fresh 2048 32
        sampleDeps.BLAKE2_SIG_MAGIC).output.out.drop 4) = some b → (0 < b ↔ 0 < 2048) :=
  header_blockLen_field sampleDeps 2 (Reader.ofBytes [1, 2, 3]) Writer.fresh 2048 32
    sampleDeps.BLAKE2_SIG_MAGIC 32 (by decide) (by decide) (by decide) rfl
    (by simp [Writer.acceptsNext, Writer.fresh])

/-- Claim C14: the reader delivers `j` complete blocks and then fails, while
block `j` is being read, with an error `e` that is neither `io.EOF` nor
`io.ErrUnexpectedEOF`.  With valid parameters, `blockLen > 0`, a writer that
never fails and more than `j` iterations allowed, `Signature` returns `e`, and
the output is the header followed by the pairs of the blocks `0 .. j-1`:
nothing is taken back and nothing is written for block `j`. -/
theorem read_failure_returned (D : Deps) (fuel : Nat) (data : List Nat) (e : Err)
    (blockLen strongLen sigType n j : Nat)
    (hB : 0 < blockLen) (hsel : nativeLen D sigType = some n) (hs : strongLen ≤ n)
    (he1 : e ≠ Err.eof) (he2 : e ≠ Err.unexpectedEOF)
    (hj1 : j * blockLen ≤ data.length) (hj2 : data.length < (j + 1) * blockLen)
    (hf : j < fuel) :
    Signature D fuel ⟨data, e⟩ Writer.fresh blockLen strongLen sigType =
      ⟨Status.returned (some e), ⟨[], e⟩,
        ⟨header sigType blockLen strongLen ++
          ((List.range j).map (fun i =>
            be32 (D.WeakChecksum (blockAt data blockLen i)) ++
              (nativeDigest D sigType (blockAt data blockLen i)).take strongLen)).flatten,
          []⟩⟩ := by
  have hj : data.length / blockLen = j := Nat.div_eq_of_lt_le hj1 hj2
  rw [Writer.fresh, Signature_valid hsel fuel _ [] blockLen strongLen hs,
    sigLoop_readError hsel blockLen strongLen hB hs e he1 he2 fuel data _ (by omega), hj]
  simp only [List.nil_append, pairsOf, pairOf, header]

/-- Evaluation of `read_failure_returned`: two complete blocks, then a failure
after one more byte. -/
theorem read_failure_returned_witness :
    Signature sampleDeps 3 ⟨[1, 2, 3, 4, 5], Err.other 3⟩ Writer.fresh 2 4
        sampleDeps.MD4_SIG_MAGIC =
      ⟨Status.returned (some (Err.other 3)), ⟨[], Err.other 3⟩,
        ⟨header sampleDeps.MD4_SIG_MAGIC 2 4 ++
          ((List.range 2).map (fun i =>
            be32 (sampleDeps.WeakChecksum (blockAt [1, 2, 3, 4, 5] 2 i)) ++
              (nativeDigest sampleDeps sampleDeps.MD4_SIG_MAGIC
                (blockAt [1, 2, 3, 4, 5] 2 i)).take 4)).flatten,
          []⟩⟩ :=
  read_failure_returned sampleDeps 3 [1, 2, 3, 4, 5] (Err.other 3) 2 4
    sampleDeps.MD4_SIG_MAGIC 16 2 (by decide) (by decide) (by decide) (by decide)
    (by decide) (by decide) (by decide) (by decide)

/-- Claim C15: for a recognized selector and `strongLen` within its native
length, `CalcStrongSum` succeeds on every block, the empty one included, with
neither an error nor a slice out of range; and no run of `Signature` with these
parameters, on any reader and writer and however long, stops with a fault. -/
theorem in_loop_strong_sum_succeeds (D : Deps) (strongLen sigType n : Nat)
    (hsel : nativeLen D sigType = some n) (hs : strongLen ≤ n) :
    (∀ block, ∃ strong, CalcStrongSum D block sigType strongLen = Outcome.ok strong) ∧
      ∀ (fuel : Nat) (input : Reader) (output : Writer) (blockLen : Nat),
        (Signature D fuel input output blockLen strongLen sigType).status ≠ Status.fault := by
  refine ⟨fun block => ⟨_, CalcStrongSum_native hsel block strongLen hs⟩, ?_⟩
  intro fuel input output blockLen
  have hsw : (if sigType = D.BLAKE2_SIG_MAGIC then some BLAKE2_SUM_LENGTH
      else if sigType = D.MD4_SIG_MAGIC then some MD4_SUM_LENGTH else none) = some n := hsel
  have hgt : ¬ strongLen > n := by omega
  simp only [Signature, hsw, hgt, if_false]
  split
  · simp
  · split
    · simp
    · split
      · simp
      · exact sigLoop_noFault hsel blockLen strongLen hs fuel _ _

/-- Evaluation of `in_loop_strong_sum_succeeds`: the empty block at the full MD4
length, and a run over three bytes. -/
theorem in_loop_strong_sum_succeeds_witness :
    (∃ strong, CalcStrongSum sampleDeps [] sampleDeps.MD4_SIG_MAGIC 16 = Outcome.ok strong) ∧
      (Signature sampleDeps 5 (Reader.ofBytes [1, 2, 3]) Writer.fresh 2 16
        sampleDeps.MD4_SIG_MAGIC).status ≠ Status.fault :=
  ⟨(in_loop_strong_sum_succeeds sampleDeps 16 sampleDeps.MD4_SIG_MAGIC 16
      (by decide) (by decide)).1 [],
    (in_loop_strong_sum_succeeds sampleDeps 16 sampleDeps.MD4_SIG_MAGIC 16
      (by decide) (by decide)).2 5 (Reader.ofBytes [1, 2, 3]) Writer.fresh 2⟩

/-- Claim C16: on an input that ends cleanly, with a writer that never fails,
`blockLen > 0` and enough iterations allowed, `Signature` returns `nil` if and
only if the selector is the BLAKE2 magic number with `strongLen ≤ 32` or the MD4
magic number with `strongLen ≤ 16`.  In particular `strongLen` equal to the
native length and `strongLen = 0` are accepted for both selectors. -/
theorem success_iff_valid (D : Deps) (fuel : Nat) (data : List Nat)
    (blockLen strongLen sigType : Nat)
    (hB : 0 < blockLen) (hf : data.length / blockLen < fuel) :
    ((Signature D fuel (Reader.ofBytes data) Writer.fresh blockLen strongLen sigType).status =
        Status.returned none ↔
      (sigType = D.BLAKE2_SIG_MAGIC ∧ strongLen ≤ 32) ∨
        (sigType = D.MD4_SIG_MAGIC ∧ strongLen ≤ 16)) ∧
      (Signature D fuel (Reader.ofBytes data) Writer.fresh blockLen 32
        D.BLAKE2_SIG_MAGIC).status = Status.returned none ∧
      (Signature D fuel (Reader.ofBytes data) Writer.fresh blockLen 16
        D.MD4_SIG_MAGIC).status = Status.returned none ∧
      (Signature D fuel (Reader.ofBytes data) Writer.fresh blockLen 0
        D.BLAKE2_SIG_MAGIC).status = Status.returned none ∧
      (Signature D fuel (Reader.ofBytes data) Writer.fresh blockLen 0
        D.MD4_SIG_MAGIC).status = Status.returned none := by
  have hok : ∀ (t n s : Nat), nativeLen D t = some n → s ≤ n →
      (Signature D fuel (Reader.ofBytes data) Writer.fresh blockLen s t).status =
        Status.returned none := by
    intro t n s hn hs
    rw [Reader.ofBytes, Writer.fresh, Signature_clean hn blockLen s hB hs fuel data [] hf]
  refine ⟨⟨?_, ?_⟩, hok _ 32 32 (nativeLen_blake2 D) (by decide),
    hok _ 16 16 (nativeLen_md4 D) (by decide), hok _ 32 0 (nativeLen_blake2 D) (by decide),
    hok _ 16 0 (nativeLen_md4 D) (by decide)⟩
  · intro hsucc
    rcases hn : nativeLen D sigType with _ | n
    · rw [Signature_unknown hn] at hsucc
      simp at hsucc
    · by_cases hs : strongLen ≤ n
      · rcases nativeLen_cases hn with ⟨hb, h32⟩ | ⟨_, hm, h16⟩
        · exact Or.inl ⟨hb, by omega⟩
        · exact Or.inr ⟨hm, by omega⟩
      · rw [Signature_tooLong hn fuel _ _ blockLen strongLen (by omega)] at hsucc
        simp at hsucc
  · rintro (⟨hb, hs⟩ | ⟨hm, hs⟩)
    · subst hb
      exact hok _ 32 strongLen (nativeLen_blake2 D) hs
    · subst hm
      exact hok _ 16 strongLen (nativeLen_md4 D) hs

/-- Evaluation of `success_iff_valid` on a 3-byte input with `blockLen = 2` and
`strongLen = 16` under the MD4 selector. -/
theorem success_iff_valid_witness :
    ((Signature sampleDeps 2 (Reader.ofBytes [1, 2, 3]) Writer.fresh 2 16
        sampleDeps.MD4_SIG_MAGIC).status = Status.returned none ↔
      (sampleDeps.MD4_SIG_MAGIC = sampleDeps.BLAKE2_SIG_MAGIC ∧ 16 ≤ 32) ∨
        (sampleDeps.MD4_SIG_MAGIC = sampleDeps.MD4_SIG_MAGIC ∧ 16 ≤ 16)) ∧
      (Signature sampleDeps 2 (Reader.ofBytes [1, 2, 3]) Writer.fresh 2 32
        sampleDeps.BLAKE2_SIG_MAGIC).status = Status.returned none ∧
      (Signature sampleDeps 2 (Reader.ofBytes [1, 2, 3]) Writer.fresh 2 16
        sampleDeps.MD4_SIG_MAGIC).status = Status.returned none ∧
      (Signature sampleDeps 2 (Reader.ofBytes [1, 2, 3]) Writer.fresh 2 0
        sampleDeps.BLAKE2_SIG_MAGIC).status = Status.returned none ∧
      (Signature sampleDeps 2 (Reader.ofBytes [1, 2, 3]) Writer.fresh 2 0
        sampleDeps.MD4_SIG_MAGIC).status = Status.returned none :=
  success_iff_valid sampleDeps 2 [1, 2, 3] 2 16 sampleDeps.MD4_SIG_MAGIC
    (by decide) (by decide)

/-- Claim C17: for a finite input that ends cleanly, a writer that never fails,
a recognized selector and `strongLen` within the native length, the loop of
`Signature` comes to an end if and only if `blockLen > 0`, and then
`floor(L / blockLen) + 1` iterations (one read each) are enough for it to
return `nil`.  With `blockLen = 0` the header is written and after any number
`fuel` of iterations the loop is still running, has read nothing, and has
added `fuel` pairs of the empty block: the output is `12 + fuel * (4 +
strongLen)` bytes long. -/
theorem loop_ends_iff_blockLen_pos (D : Deps) (data : List Nat)
    (blockLen strongLen sigType n : Nat)
    (hsel : nativeLen D sigType = some n) (hs : strongLen ≤ n) :
    ((∃ fuel, (Signature D fuel (Reader.ofBytes data) Writer.fresh blockLen strongLen
        sigType).status ≠ Status.running) ↔ 0 < blockLen) ∧
      (0 < blockLen →
        (Signature D (data.length / blockLen + 1) (Reader.ofBytes data) Writer.fresh blockLen
          strongLen sigType).status = Status.returned none) ∧
      (∀ fuel, Signature D fuel (Reader.ofBytes data) Writer.fresh 0 strongLen sigType =
        ⟨Status.running, Reader.ofBytes data,
          ⟨header sigType 0 strongLen ++
            (List.replicate fuel (pairOf D sigType strongLen [])).flatten, []⟩⟩) ∧
      (∀ fuel, (Signature D fuel (Reader.ofBytes data) Writer.fresh 0 strongLen
        sigType).output.out.length = 12 + fuel * (4 + strongLen)) := by
  have hzero : ∀ fuel, Signature D fuel (Reader.ofBytes data) Writer.fresh 0 strongLen sigType =
      ⟨Status.running, Reader.ofBytes data,
        ⟨header sigType 0 strongLen ++
          (List.replicate fuel (pairOf D sigType strongLen [])).flatten, []⟩⟩ := by
    intro fuel
    rw [Writer.fresh, Signature_valid hsel fuel _ [] 0 strongLen hs,
      sigLoop_zeroBlock hsel strongLen hs fuel]
    simp only [List.nil_append, header]
  have hpos : 0 < blockLen →
      (Signature D (data.length / blockLen + 1) (Reader.ofBytes data) Writer.fresh blockLen
        strongLen sigType).status = Status.returned none := by
    intro hB
    rw [Reader.ofBytes, Writer.fresh,
      Signature_clean hsel blockLen strongLen hB hs _ data [] (Nat.lt_succ_self _)]
  refine ⟨⟨?_, ?_⟩, hpos, hzero, ?_⟩
  · rintro ⟨fuel, hrun⟩
    by_contra hB
    have hB0 : blockLen = 0 := by omega
    subst hB0
    rw [hzero fuel] at hrun
    exact hrun rfl
  · intro hB
    exact ⟨data.length / blockLen + 1, by rw [hpos hB]; simp⟩
  · intro fuel
    rw [hzero fuel]
    simp only [List.length_append, header_length, List.length_flatten, List.map_replicate,
      List.sum_replicate, pairOf_length hsel strongLen hs, smul_eq_mul]

/-- Evaluation of `loop_ends_iff_blockLen_pos` on a 3-byte input with the MD4
selector: `blockLen = 2` ends after two iterations, `blockLen = 0` has written\nthree pairs after three iterations. -/
theorem loop_ends_iff_blockLen_pos_witness :
    (Signature sampleDeps ([1, 2, 3].length / 2 + 1) (Reader.ofBytes [1, 2, 3]) Writer.fresh 2
        4 sampleDeps.MD4_SIG_MAGIC).status = Status.returned none ∧
      (Signature sampleDeps 3 (Reader.ofBytes [1, 2, 3]) Writer.fresh 0 4
        sampleDeps.MD4_SIG_MAGIC).output.out.length = 12 + 3 * (4 + 4) :=
  ⟨(loop_ends_iff_blockLen_pos sampleDeps [1, 2, 3] 2 4 sampleDeps.MD4_SIG_MAGIC 16
      (by decide) (by decide)).2.1 (by decide),
    (loop_ends_iff_blockLen_pos sampleDeps [1, 2, 3] 2 4 sampleDeps.MD4_SIG_MAGIC 16
      (by decide) (by decide)).2.2.2 3⟩

/-- Claim C18: when `Signature` fails its validation, because the selector is
not recognized or `strongLen` is above the native length, it returns an error
and the reader is exactly as it was before the call: nothing has been read. -/
theorem validation_failure_reads_nothing (D : Deps) (fuel : Nat) (input : Reader)
    (output : Writer) (blockLen strongLen sigType : Nat)
    (h : nativeLen D sigType = none ∨ ∃ n, nativeLen D sigType = some n ∧ n < strongLen) :
    (Signature D fuel input output blockLen strongLen sigType).input = input ∧
      ∃ e, (Signature D fuel input output blockLen strongLen sigType).status =
        Status.returned (some e) := by
  rcases h with hn | ⟨n, hn, hs⟩
  · rw [Signature_unknown hn]
    exact ⟨rfl, _, rfl⟩
  · rw [Signature_tooLong hn fuel input output blockLen strongLen hs]
    exact ⟨rfl, _, rfl⟩

/-- Evaluation of `validation_failure_reads_nothing`: `strongLen = 33` with the
BLAKE2 selector leaves the three input bytes unread. -/
theorem validation_failure_reads_nothing_witness :
    (Signature sampleDeps 4 (Reader.ofBytes [1, 2, 3]) Writer.fresh 2 33
        sampleDeps.BLAKE2_SIG_MAGIC).input = Reader.ofBytes [1, 2, 3] ∧
      ∃ e, (Signature sampleDeps 4 (Reader.ofBytes [1, 2, 3]) Writer.fresh 2 33
        sampleDeps.BLAKE2_SIG_MAGIC).status = Status.returned (some e) :=
  validation_failure_reads_nothing sampleDeps 4 (Reader.ofBytes [1, 2, 3]) Writer.fresh 2 33
    sampleDeps.BLAKE2_SIG_MAGIC (Or.inr ⟨32, by decide, by decide⟩)

end Rdiff
